import Mathlib

/-!
Verification of the `Report` data structure from `mmf/common/report.py`.

`Report` is a Python `OrderedDict` subclass.  The embedding models it as an
association list from `String` keys to `Value`s, where `Value` covers the
Python value shapes the module manipulates: numbers, strings, tensors,
lists, tuples and string-keyed dicts.  Tensors are modelled as a shape
together with a flat list of exact rational entries (the module only uses
concatenation along the leading axis and elementwise/broadcast addition,
both of which are exact).

Python's attribute machinery is modelled at the level of the overridden
hooks `__setattr__` / `__getattr__`: `__setattr__` writes unconditionally
into the dict storage (so even `self.batch_size = ...` creates an ordinary
dict entry, since the class-level property setter is never reached), and an
attribute read of a key falls through to the dict storage.  In particular
reading `batch_size` goes: class property getter -> `self._batch_size` ->
`__getattr__("_batch_size")` -> `KeyError` -> `AttributeError`, after which
Python retries with `__getattr__("batch_size")` -> dict lookup.  The net
observable behaviour for data keys is "dict lookup, `AttributeError` when
absent", which is what `Report.getattr` below implements.  Keys that shadow
class method names are outside the embedding's domain.

Exceptions are modelled with `Except PyErr`; run-time warnings (Python's
`warnings.warn`) are collected into a `List String` in emission order.
The merge loop's collision warning is formatted from the live dict value
of `warning_string` (which merge sources can overwrite), so the merge
loop itself is fallible: `pyFormat` models the `str.format` call.
-/

/-- Python value shapes used by the report module.  `vNum` covers Python
ints and floats (exactly, as rationals); `vTensor` is a `torch.Tensor`
with its shape and flat data; `vList` is a mutable sequence, `vTuple` an
immutable one; `vDict` a string-keyed dict in insertion order. -/
inductive Value where
  | vNum (q : ℚ)
  | vStr (s : String)
  | vTensor (shape : List Nat) (data : List ℚ)
  | vList (xs : List Value)
  | vTuple (xs : List Value)
  | vDict (entries : List (String × Value))

/-- Python exceptions that the report module can raise. `otherError`
stands for error shapes whose precise class the claims never inspect
(e.g. calling `.items()` on a non-dict, or `torch.cat` on non-tensors). -/
inductive PyErr where
  | keyError (k : String)
  | attributeError (k : String)
  | typeError (idx : Nat)
  | indexError
  | otherError
deriving DecidableEq

/-- First-match lookup in a string-keyed association list (Python dict
`d[k]` read, as `Option`). -/
def assocGet : List (String × Value) → String → Option Value
  | [], _ => none
  | p :: rest, k => if p.1 = k then some p.2 else assocGet rest k

/-- Python dict assignment `d[k] = v`: updating an existing key keeps its
position, a new key is appended at the end (insertion order). -/
def assocSet : List (String × Value) → String → Value → List (String × Value)
  | [], k, v => [(k, v)]
  | p :: rest, k, v => if p.1 = k then (k, v) :: rest else p :: assocSet rest k v

/-- Key list of an association list, in insertion order. -/
def assocKeys (l : List (String × Value)) : List String := l.map Prod.fst

/-- The `Report` class: an ordered string-keyed mapping. -/
structure Report where
  entries : List (String × Value)

/-- Dict read `self[k]` as an `Option` (membership test and lookup). -/
def Report.lookup (r : Report) (k : String) : Option Value :=
  assocGet r.entries k

/-- Dict write `self[k] = v`. -/
def Report.setItem (r : Report) (k : String) (v : Value) : Report :=
  ⟨assocSet r.entries k v⟩

/-- Sequential dict writes, one per pair, in list order. -/
def Report.setItems (r : Report) (l : List (String × Value)) : Report :=
  l.foldl (fun a kv => a.setItem kv.1 kv.2) r

/-- Source `Report.fields`: `list(self.keys())`, the ordered key snapshot. -/
def Report.fields (r : Report) : List String :=
  assocKeys r.entries

/-- Membership `key in self`. -/
def Report.containsKey (r : Report) (k : String) : Bool :=
  (r.lookup k).isSome

/-- Subscript read `self[k]`: raises `KeyError` when the key is absent. -/
def Report.getitem (r : Report) (k : String) : Except PyErr Value :=
  match r.lookup k with
  | some v => .ok v
  | none => .error (.keyError k)

/-- Source `Report.__getattr__`: `try: return self[key] except KeyError:
raise AttributeError(key)`. -/
def Report.getattr (r : Report) (k : String) : Except PyErr Value :=
  match r.getitem k with
  | .ok v => .ok v
  | .error _ => .error (.attributeError k)

/-- Source `Report.__setattr__`: `self[key] = value`, unconditionally. -/
def Report.setattr (r : Report) (k : String) (v : Value) : Report :=
  r.setItem k v

/-- Source `Report.get_batch_size`: `return self.batch_size`.  The class
property on `batch_size` falls through to `__getattr__("batch_size")` as
explained in the module docstring, i.e. an attribute read of the dict key
`"batch_size"`. -/
def Report.get_batch_size (r : Report) : Except PyErr Value :=
  r.getattr "batch_size"

/-- The template stored under `self.warning_string` at construction (the
braces are Python `str.format` placeholders). -/
def warningTemplate : String :=
  "Updating forward report with key \x7b\x7d\x7b\x7d, but it already exists in \x7b\x7d. Please consider using a different key, as this can cause issues during loss and metric calculations."

/-- The text `self.warning_string.format(key, "", "in previous arguments
to report")` produces while the stored template is intact (the lemma
`pyFormat_template` proves this equal to formatting the template). -/
def mergeWarning (k : String) : String :=
  "Updating forward report with key " ++ k ++ ", but it already exists in in previous arguments to report. Please consider using a different key, as this can cause issues during loss and metric calculations."

/-- Numeric value of a digit string (only applied to all-digit fields). -/
def digitsToNat (cs : List Char) : Nat :=
  cs.foldl (fun n c => n * 10 + (c.toNat - '0'.toNat)) 0

/-- Scanner of Python `str.format` restricted to the constructs a
positional-only call can exercise: literal text, escaped braces `\x7b\x7b`
and `\x7d\x7d`, auto-numbered empty fields `\x7b\x7d` and purely numeric
fields.  The second argument is `none` in literal text and `some field`
inside a replacement field.  Faithful failure modes: a lone closing
brace, an unterminated field, mixing automatic and manual numbering
(Python `ValueError`), an out-of-range index (`IndexError`), and named
fields (a `KeyError`, since the call site passes no keyword arguments).
Conversions, format specs and attribute/index access inside a field are
outside the modelled subset and also mapped to an error. -/
def fmtGo (args : List String) :
    List Char → Option (List Char) → Nat → Bool → Bool →
    Except PyErr (List Char)
  | [], none, _, _, _ => .ok []
  | [], some _, _, _, _ => .error .otherError
  | '\x7b' :: '\x7b' :: rest, none, i, ua, um =>
    ('\x7b' :: ·) <$> fmtGo args rest none i ua um
  | '\x7d' :: '\x7d' :: rest, none, i, ua, um =>
    ('\x7d' :: ·) <$> fmtGo args rest none i ua um
  | '\x7b' :: rest, none, i, ua, um => fmtGo args rest (some []) i ua um
  | '\x7d' :: _, none, _, _, _ => .error .otherError
  | c :: rest, none, i, ua, um => (c :: ·) <$> fmtGo args rest none i ua um
  | '\x7d' :: rest, some field, i, ua, um =>
    if field = [] then
      if um then .error .otherError
      else
        match args.get? i with
        | some a => (a.data ++ ·) <$> fmtGo args rest none (i + 1) true um
        | none => .error .indexError
    else if field.all (fun c => c.isDigit) then
      if ua then .error .otherError
      else
        match args.get? (digitsToNat field) with
        | some a => (a.data ++ ·) <$> fmtGo args rest none i ua true
        | none => .error .indexError
    else .error .otherError
  | c :: rest, some field, i, ua, um =>
    fmtGo args rest (some (field ++ [c])) i ua um

/-- Python `t.format(*args)` over the modelled scanner. -/
def pyFormat (t : String) (args : List String) : Except PyErr String :=
  match fmtGo args t.data none 0 false false with
  | .ok cs => .ok (String.mk cs)
  | .error e => .error e

/-- Warning text of `accumulate_tensor_fields_and_loss` for a field name
absent from `self`. -/
def accFieldWarning (k : String) : String :=
  k ++ " not found in report. Metrics calculation might not work as expected."

/-- Warning text of `_accumulate_loss` for a loss key absent from
`self.losses`. -/
def lossWarning (k : String) : String :=
  k ++ " not found in report. Loss calculation might not work as expected."

/-- The `batch` constructor argument: `None`, a mapping-capable object
that also exposes `get_batch_size()` (its value carried alongside), or a
non-mapping sequence.  Mapping batches without `get_batch_size` are
outside the embedding's domain (their construction is a hard
`AttributeError`, which no claim exercises). -/
inductive BatchArg where
  | bNone
  | bMap (entries : List (String × Value)) (batchSize : ℚ)
  | bSeq (items : List Value)

/-- A `model_output` or extra positional argument: a mapping with its
items, or a non-mapping object. -/
inductive MapArg where
  | mMap (entries : List (String × Value))
  | mNonMap

/-- The `isinstance(arg, collections.abc.Mapping)` test. -/
def MapArg.isMapping : MapArg → Bool
  | .mMap _ => true
  | .mNonMap => false

/-- Items of a mapping argument (only read after the mapping check). -/
def MapArg.entriesOf : MapArg → List (String × Value)
  | .mMap es => es
  | .mNonMap => []

/-- How `batch` participates in the `all_args` type check: a mapping batch
is a mapping, a sequence batch is not. -/
def batchToMapArg : BatchArg → MapArg
  | .bMap es _ => .mMap es
  | _ => .mNonMap

/-- Index of the first argument failing the mapping check, mirroring the
`for idx, arg in enumerate(all_args)` loop that raises `TypeError` at the
first offender. -/
def firstNonMapping : List MapArg → Option Nat
  | [] => none
  | a :: rest =>
    if a.isMapping then (firstNonMapping rest).map (· + 1) else some 0

/-- The head test of `_check_and_load_tuple`:
`isinstance(batch[0], (tuple, list)) and isinstance(batch[0][0], str)`.
Indexing an empty inner sequence raises `IndexError`. -/
def tupleHeadCheck : Value → Except PyErr Bool
  | .vTuple [] => .error .indexError
  | .vList [] => .error .indexError
  | .vTuple (.vStr _ :: _) => .ok true
  | .vList (.vStr _ :: _) => .ok true
  | .vTuple (_ :: _) => .ok false
  | .vList (_ :: _) => .ok false
  | _ => .ok false

/-- One step of the tuple loading loop: `self[kv_pair[0]] = kv_pair[1]`.
Extra components beyond the first two are ignored, as in Python.  Items
that are not string-keyed pairs raise (index/type errors, or carry
non-string keys, which are outside the string-keyed embedding). -/
def loadPair (r : Report) : Value → Except PyErr Report
  | .vTuple (.vStr k :: v :: _) => .ok (r.setItem k v)
  | .vList (.vStr k :: v :: _) => .ok (r.setItem k v)
  | _ => .error .otherError

/-- Source `Report._check_and_load_tuple`: mappings pass through
(`False`); a sequence whose first element is a string-headed pair loads
every pair in order and reports `True` (`some` of the loaded report). -/
def Report.check_and_load_tuple (r : Report) (batch : BatchArg) :
    Except PyErr (Option Report) :=
  match batch with
  | .bMap _ _ => .ok none
  | .bNone => .ok none
  | .bSeq [] => .error .indexError
  | .bSeq (x :: rest) =>
    match tupleHeadCheck x with
    | .error e => .error e
    | .ok false => .ok none
    | .ok true =>
      match (x :: rest).foldlM loadPair r with
      | .error e => .error e
      | .ok r2 => .ok (some r2)

/-- One step of the merge loop.  On a collision at source index at least
2 the warning text is `self.warning_string.format(key, "", "in previous
arguments to report")`, computed from the current dict value of
`warning_string`: an attribute read (failing if the key is gone)
followed by `.format` — which a merge source may have overwritten, so
the call can produce a different text or raise an `AttributeError` (no
`.format` on a non-string value) and abort construction.  Then the key
is assigned. -/
def mergeStep (idx : Nat) (st : Report × List String) (kv : String × Value) :
    Except PyErr (Report × List String) :=
  if st.1.containsKey kv.1 && decide (idx ≥ 2) then
    match st.1.getattr "warning_string" with
    | .error e => .error e
    | .ok (.vStr t) =>
      match pyFormat t [kv.1, "", "in previous arguments to report"] with
      | .error e => .error e
      | .ok log => .ok (st.1.setItem kv.1 kv.2, st.2 ++ [log])
    | .ok _ => .error (.attributeError "format")
  else .ok (st.1.setItem kv.1 kv.2, st.2)

/-- The outer merge loop over `all_args`, carrying the enumeration index;
a failed warning computation propagates out of `__init__`. -/
def mergeFrom (idx : Nat) (st : Report × List String) :
    List (List (String × Value)) → Except PyErr (Report × List String)
  | [] => .ok st
  | l :: ls =>
    match l.foldlM (mergeStep idx) st with
    | .error e => .error e
    | .ok st2 => mergeFrom (idx + 1) st2 ls

/-- Result of `Report.__init__`: the constructed report with the warnings
emitted, or the exception raised. -/
inductive InitResult where
  | okRes (r : Report) (warns : List String)
  | errRes (e : PyErr)

/-- Report payload of a successful construction (empty report otherwise). -/
def InitResult.reportOf : InitResult → Report
  | .okRes r _ => r
  | .errRes _ => ⟨[]⟩

/-- Warnings of a successful construction. -/
def InitResult.warnsOf : InitResult → List String
  | .okRes _ w => w
  | .errRes _ => []

/-- Source `Report.__init__(batch=None, model_output=None, *args)`:
return empty on `batch is None`; default `model_output` to `{}`; take the
tuple-of-pairs fast path when it applies; otherwise type-check every
positional argument, store `batch_size` and `warning_string` as ordinary
dict entries, and merge all sources in order with the position-dependent
collision warning.  The final catch-all branch is unreachable (a sequence
batch that failed the tuple check fails the mapping check at index 0). -/
def Report.construct (batch : BatchArg) (modelOutput : Option MapArg)
    (args : List MapArg) : InitResult :=
  match batch with
  | .bNone => .okRes ⟨[]⟩ []
  | _ =>
    let mo := modelOutput.getD (.mMap [])
    match Report.check_and_load_tuple ⟨[]⟩ batch with
    | .error e => .errRes e
    | .ok (some r) => .okRes r []
    | .ok none =>
      let allArgs := batchToMapArg batch :: mo :: args
      match firstNonMapping allArgs with
      | some idx => .errRes (.typeError idx)
      | none =>
        match batch with
        | .bMap _ bs =>
          let r0 := ((Report.mk []).setItem "batch_size" (.vNum bs)).setItem
            "warning_string" (.vStr warningTemplate)
          match mergeFrom 0 (r0, []) (allArgs.map MapArg.entriesOf) with
          | .error e => .errRes e
          | .ok st => .okRes st.1 st.2
        | _ => .errRes (.typeError 0)

/-- The `fields` argument of `apply_fn`: omitted/`None`, a list or tuple
of key names, or some other (non-list, non-tuple) collection which the
`isinstance(fields, (list, tuple))` guard rejects. -/
inductive FieldsArg where
  | fNone
  | fList (ks : List String)
  | fOther (ks : List String)

/-- The skip test of `apply_fn`: a key is skipped exactly when `fields` is
a list/tuple not containing it. -/
def skipField : FieldsArg → String → Bool
  | .fList ks, k => !(ks.contains k)
  | _, _ => false

/-- The per-key body of `apply_fn`: apply `fn` to the value; if the result
is a mutable sequence, apply `fn` once more to each element in place; if
it is a dict, apply `fn` once more to each of its values in place.
Tuples, tensors, numbers and strings fall through both `isinstance`
tests.  There is no deeper recursion. -/
def applyOnce (fn : Value → Value) (v : Value) : Value :=
  match fn v with
  | .vList xs => .vList (xs.map fn)
  | .vDict m => .vDict (m.map (fun p => (p.1, fn p.2)))
  | w => w

/-- Source `Report.apply_fn(fn, fields=None)`: iterate over the keys (the
key set and order never change, since only existing keys are reassigned),
skipping per `skipField`, transforming per `applyOnce`. -/
def Report.apply_fn (r : Report) (fn : Value → Value) (fields : FieldsArg) :
    Report :=
  ⟨r.entries.map (fun p => if skipField fields p.1 then p
    else (p.1, applyOnce fn p.2))⟩

/-- Model of `copy.deepcopy` on embedded values: values are immutable
trees here, so a deep copy is observationally the value itself (the
aliasing that `deepcopy` severs is not representable in this embedding). -/
def deepCopy (v : Value) : Value := v

/-- Source `Report.copy`: a fresh report, then `report[field] =
copy.deepcopy(self[field])` for each field in order.  A field always
resolves (`getD` supplies an unreachable fallback). -/
def Report.copy (r : Report) : Report :=
  r.fields.foldl
    (fun acc f => acc.setItem f (deepCopy ((r.lookup f).getD (.vNum 0)))) ⟨[]⟩

/-- The `isinstance(x, torch.Tensor)` test. -/
def Value.isTensor : Value → Bool
  | .vTensor _ _ => true
  | _ => false

/-- `torch.cat((a, b), dim=0)`: both operands must be tensors of rank at
least one with matching trailing shape; the leading dimensions add and
the flat data concatenates. -/
def catTensors : Value → Value → Option Value
  | .vTensor (a :: s1) d1, .vTensor (b :: s2) d2 =>
    if s1 = s2 then some (.vTensor ((a + b) :: s1) (d1 ++ d2)) else none
  | _, _ => none

/-- In-place tensor addition `t += v`: elementwise for an equal-shaped
tensor, broadcast for a scalar number; other combinations (including
shape-incompatible tensors, whose broadcasting the module never relies
on) are out of the model and fail. -/
def addTensor : Value → Value → Option Value
  | .vTensor s d, .vTensor s2 d2 =>
    if s = s2 then some (.vTensor s (List.zipWith (· + ·) d d2)) else none
  | .vTensor s d, .vNum q => some (.vTensor s (d.map (· + q)))
  | _, _ => none

/-- One step of the field loop of `accumulate_tensor_fields_and_loss`:
skip the sentinel; warn and skip on a key absent from `self`; on a tensor
value concatenate with the other report's value (whose absence raises
`KeyError`); leave non-tensor values untouched. -/
def accField (other : Report) (st : Report × List String) (key : String) :
    Except PyErr (Report × List String) :=
  if key = "__prediction_report__" then .ok st
  else
    match st.1.lookup key with
    | none => .ok (st.1, st.2 ++ [accFieldWarning key])
    | some v =>
      if v.isTensor then
        match other.lookup key with
        | none => .error (.keyError key)
        | some ov =>
          match catTensors v ov with
          | some c => .ok (st.1.setItem key c, st.2)
          | none => .error .otherError
      else .ok st

/-- One step of `_accumulate_loss`: read the current `self.losses` dict
(an `AttributeError` when the key is absent, a type-shaped error when it
is not a dict); warn and skip on a loss key absent from it; on a tensor
value add the other value in place; leave non-tensor values untouched. -/
def lossField (st : Report × List String) (kv : String × Value) :
    Except PyErr (Report × List String) :=
  match st.1.lookup "losses" with
  | none => .error (.attributeError "losses")
  | some (.vDict m) =>
    match assocGet m kv.1 with
    | none => .ok (st.1, st.2 ++ [lossWarning kv.1])
    | some cur =>
      if cur.isTensor then
        match addTensor cur kv.2 with
        | some v2 => .ok (st.1.setItem "losses" (.vDict (assocSet m kv.1 v2)), st.2)
        | none => .error .otherError
      else .ok st
  | some _ => .error .otherError

/-- Source `Report._accumulate_loss(report)`: iterate over
`report.losses.items()` (an `AttributeError` when the other report has no
`losses` key, a type-shaped error when its value is not a dict), folding
`lossField`. -/
def Report.accumulate_loss (self other : Report) (ws : List String) :
    Except PyErr (Report × List String) :=
  match other.getattr "losses" with
  | .error e => .error e
  | .ok (.vDict m) => m.foldlM lossField (self, ws)
  | .ok _ => .error .otherError

/-- Source `Report.accumulate_tensor_fields_and_loss(report, field_list)`:
fold the field loop over `field_list`, then accumulate losses. -/
def Report.accumulate_tensor_fields_and_loss (self other : Report)
    (fieldList : List String) : Except PyErr (Report × List String) := do
  let st ← fieldList.foldlM (accField other) (self, [])
  Report.accumulate_loss st.1 other st.2

theorem assocKeys_nil : assocKeys [] = [] := rfl

theorem assocKeys_cons (p : String × Value) (l : List (String × Value)) :
    assocKeys (p :: l) = p.1 :: assocKeys l := rfl

theorem assocKeys_append (m m' : List (String × Value)) :
    assocKeys (m ++ m') = assocKeys m ++ assocKeys m' := by
  simp [assocKeys]

theorem assocGet_set_self (m : List (String × Value)) (k : String) (v : Value) :
    assocGet (assocSet m k v) k = some v := by
  induction m with
  | nil => simp [assocSet, assocGet]
  | cons p rest ih =>
    by_cases h : p.1 = k
    · simp [assocSet, assocGet, h]
    · simp [assocSet, assocGet, h, ih]

theorem assocGet_set_ne (m : List (String × Value)) (k k' : String) (v : Value)
    (h : k' ≠ k) : assocGet (assocSet m k v) k' = assocGet m k' := by
  have hkk : ¬ (k = k') := fun hh => h hh.symm
  induction m with
  | nil => simp [assocSet, assocGet, hkk]
  | cons p rest ih =>
    by_cases hp : p.1 = k
    · subst hp
      simp [assocSet, assocGet, hkk]
    · simp only [assocSet, hp, if_false, assocGet]
      by_cases hp' : p.1 = k'
      · simp [hp']
      · simp [hp', ih]

theorem assocSet_fresh (m : List (String × Value)) (k : String) (v : Value)
    (h : k ∉ assocKeys m) : assocSet m k v = m ++ [(k, v)] := by
  induction m with
  | nil => simp [assocSet]
  | cons p rest ih =>
    rw [assocKeys_cons, List.mem_cons, not_or] at h
    have hp : ¬ p.1 = k := fun hh => h.1 hh.symm
    simp [assocSet, hp, ih h.2]

theorem assocKeys_set_mem (m : List (String × Value)) (k : String) (v : Value)
    (h : k ∈ assocKeys m) : assocKeys (assocSet m k v) = assocKeys m := by
  induction m with
  | nil => simp [assocKeys_nil] at h
  | cons p rest ih =>
    by_cases hp : p.1 = k
    · simp [assocSet, hp, assocKeys_cons]
    · rw [assocKeys_cons, List.mem_cons] at h
      have h' : k ∈ assocKeys rest := by
        rcases h with h1 | h2
        · exact absurd h1.symm hp
        · exact h2
      rw [assocSet, if_neg hp, assocKeys_cons, assocKeys_cons, ih h']

theorem assocKeys_set_cases (m : List (String × Value)) (k : String) (v : Value) :
    assocKeys (assocSet m k v) = assocKeys m
      ∨ assocKeys (assocSet m k v) = assocKeys m ++ [k] := by
  by_cases h : k ∈ assocKeys m
  · exact Or.inl (assocKeys_set_mem m k v h)
  · right
    rw [assocSet_fresh m k v h, assocKeys_append]
    rfl

theorem assocKeys_set_nodup (m : List (String × Value)) (k : String) (v : Value)
    (h : (assocKeys m).Nodup) : (assocKeys (assocSet m k v)).Nodup := by
  by_cases hk : k ∈ assocKeys m
  · rw [assocKeys_set_mem m k v hk]; exact h
  · rw [assocSet_fresh m k v hk, assocKeys_append]
    refine List.Nodup.append h (List.nodup_singleton k) ?_
    intro a ha hb
    have : a = k := by
      have : assocKeys [(k, v)] = [k] := rfl
      rw [this, List.mem_singleton] at hb
      exact hb
    exact hk (this ▸ ha)

theorem assocGet_of_mem_nodup (m : List (String × Value)) (k : String) (v : Value)
    (hn : (assocKeys m).Nodup) (hm : (k, v) ∈ m) : assocGet m k = some v := by
  induction m with
  | nil => simp at hm
  | cons p rest ih =>
    rw [assocKeys_cons, List.nodup_cons] at hn
    rw [List.mem_cons] at hm
    rcases hm with hm | hm
    · rw [← hm]
      simp [assocGet]
    · have hk : k ∈ assocKeys rest := by
        simpa [assocKeys] using List.mem_map_of_mem Prod.fst hm
      have hp : ¬ p.1 = k := fun hh => hn.1 (hh ▸ hk)
      rw [assocGet, if_neg hp]
      exact ih hn.2 hm

theorem Report.lookup_setItem_self (r : Report) (k : String) (v : Value) :
    (r.setItem k v).lookup k = some v := by
  simp [Report.lookup, Report.setItem, assocGet_set_self]

theorem Report.lookup_setItem_ne (r : Report) (k k' : String) (v : Value)
    (h : k' ≠ k) : (r.setItem k v).lookup k' = r.lookup k' := by
  simp [Report.lookup, Report.setItem, assocGet_set_ne _ _ _ _ h]

theorem Report.containsKey_setItem_self (r : Report) (k : String) (v : Value) :
    (r.setItem k v).containsKey k = true := by
  simp [Report.containsKey, Report.lookup_setItem_self]

theorem Report.containsKey_setItem_of (r : Report) (k k' : String) (v : Value)
    (h : r.containsKey k = true) : (r.setItem k' v).containsKey k = true := by
  by_cases hk : k = k'
  · subst hk; exact r.containsKey_setItem_self k v
  · simpa [Report.containsKey, Report.lookup_setItem_ne _ _ _ _ hk] using h

theorem Report.setItems_cons (r : Report) (kv : String × Value)
    (l : List (String × Value)) :
    r.setItems (kv :: l) = (r.setItem kv.1 kv.2).setItems l := rfl

theorem Report.setItems_fresh (l : List (String × Value)) : ∀ (r : Report),
    (∀ k ∈ assocKeys l, k ∉ assocKeys r.entries) → (assocKeys l).Nodup →
    (r.setItems l).entries = r.entries ++ l := by
  induction l with
  | nil => intro r _ _; simp [Report.setItems]
  | cons kv rest ih =>
    intro r hfresh hnd
    rw [assocKeys_cons, List.nodup_cons] at hnd
    have hk : kv.1 ∉ assocKeys r.entries :=
      hfresh kv.1 (by rw [assocKeys_cons]; exact List.mem_cons_self _ _)
    have hset : (r.setItem kv.1 kv.2).entries = r.entries ++ [kv] := by
      simpa [Report.setItem] using assocSet_fresh r.entries kv.1 kv.2 hk
    have hfresh' : ∀ k ∈ assocKeys rest,
        k ∉ assocKeys (r.setItem kv.1 kv.2).entries := by
      intro k hkrest
      rw [hset, assocKeys_append]
      have h1 : k ∉ assocKeys r.entries :=
        hfresh k (by rw [assocKeys_cons]; exact List.mem_cons_of_mem _ hkrest)
      have h2 : k ≠ kv.1 := fun hh => hnd.1 (hh ▸ hkrest)
      rw [List.mem_append, not_or]
      refine ⟨h1, ?_⟩
      have : assocKeys [kv] = [kv.1] := rfl
      rw [this, List.mem_singleton]
      exact h2
    rw [Report.setItems_cons, ih (r.setItem kv.1 kv.2) hfresh' hnd.2, hset,
      List.append_assoc]
    rfl

theorem Report.containsKey_setItems_of (l : List (String × Value)) :
    ∀ (r : Report) (k : String), r.containsKey k = true →
    (r.setItems l).containsKey k = true := by
  induction l with
  | nil => intro r k h; simpa [Report.setItems] using h
  | cons kv rest ih =>
    intro r k h
    rw [Report.setItems_cons]
    exact ih _ k (r.containsKey_setItem_of _ _ _ h)

theorem Report.fields_setItem_prefix (r : Report) (k : String) (v : Value) :
    ∃ t, (r.setItem k v).fields = r.fields ++ t := by
  rcases assocKeys_set_cases r.entries k v with h | h
  · exact ⟨[], by simp [Report.fields, Report.setItem, h]⟩
  · exact ⟨[k], by simp [Report.fields, Report.setItem, h]⟩

theorem Report.fields_setItems_prefix (l : List (String × Value)) :
    ∀ (r : Report), ∃ t, (r.setItems l).fields = r.fields ++ t := by
  induction l with
  | nil => intro r; exact ⟨[], by simp [Report.setItems]⟩
  | cons kv rest ih =>
    intro r
    rw [Report.setItems_cons]
    obtain ⟨t1, h1⟩ := r.fields_setItem_prefix kv.1 kv.2
    obtain ⟨t2, h2⟩ := ih (r.setItem kv.1 kv.2)
    exact ⟨t1 ++ t2, by rw [h2, h1, List.append_assoc]⟩

theorem Report.fields_nodup_setItem (r : Report) (k : String) (v : Value)
    (h : r.fields.Nodup) : (r.setItem k v).fields.Nodup :=
  assocKeys_set_nodup r.entries k v h

theorem Report.fields_nodup_setItems (l : List (String × Value)) :
    ∀ (r : Report), r.fields.Nodup → (r.setItems l).fields.Nodup := by
  induction l with
  | nil => intro r h; simpa [Report.setItems] using h
  | cons kv rest ih =>
    intro r h
    rw [Report.setItems_cons]
    exact ih _ (r.fields_nodup_setItem kv.1 kv.2 h)

set_option maxRecDepth 8000 in
theorem pyFormat_template (k : String) :
    pyFormat warningTemplate [k, "", "in previous arguments to report"]
      = .ok (mergeWarning k) := rfl

theorem mergeStep_lt (i : Nat) (hi : i < 2) (st : Report × List String)
    (kv : String × Value) :
    mergeStep i st kv = .ok (st.1.setItem kv.1 kv.2, st.2) := by
  have h2 : ¬ (i ≥ 2) := by omega
  simp [mergeStep, h2]

theorem mergeFoldM_lt (i : Nat) (hi : i < 2) (l : List (String × Value)) :
    ∀ (st : Report × List String),
    l.foldlM (mergeStep i) st = .ok (st.1.setItems l, st.2) := by
  induction l with
  | nil => intro st; rfl
  | cons kv rest ih =>
    intro st
    rw [List.foldlM_cons, mergeStep_lt i hi]
    show rest.foldlM (mergeStep i) (st.1.setItem kv.1 kv.2, st.2) = _
    rw [ih, Report.setItems_cons]

theorem mergeFrom_cons (i : Nat) (st : Report × List String)
    (l : List (String × Value)) (ls : List (List (String × Value))) :
    mergeFrom i st (l :: ls)
      = match l.foldlM (mergeStep i) st with
        | .error e => .error e
        | .ok st2 => mergeFrom (i + 1) st2 ls := rfl

theorem mergeFoldM_singleton (i : Nat) (st st' : Report × List String)
    (kv : String × Value) (h : mergeStep i st kv = .ok st') :
    [kv].foldlM (mergeStep i) st = .ok st' := by
  rw [List.foldlM_cons, h]
  rfl

theorem mergeStep_ok_fst (i : Nat) (st st' : Report × List String)
    (kv : String × Value) (h : mergeStep i st kv = .ok st') :
    st'.1 = st.1.setItem kv.1 kv.2 := by
  unfold mergeStep at h
  by_cases hc : (st.1.containsKey kv.1 && decide (i ≥ 2)) = true
  · rw [if_pos hc] at h
    cases hg : st.1.getattr "warning_string" with
    | error e => rw [hg] at h; simp at h
    | ok v =>
      rw [hg] at h
      cases v with
      | vStr t =>
        dsimp only at h
        cases hf : pyFormat t [kv.1, "", "in previous arguments to report"] with
        | error e => rw [hf] at h; simp at h
        | ok log =>
          rw [hf] at h
          dsimp only at h
          injection h with h2
          rw [← h2]
      | vNum q => simp at h
      | vTensor s d => simp at h
      | vList xs => simp at h
      | vTuple xs => simp at h
      | vDict m => simp at h
  · rw [if_neg hc] at h
    injection h with h2
    rw [← h2]

theorem mergeFoldM_ok_fst (i : Nat) (l : List (String × Value)) :
    ∀ (st st' : Report × List String),
    l.foldlM (mergeStep i) st = .ok st' → st'.1 = st.1.setItems l := by
  induction l with
  | nil =>
    intro st st' h
    have h2 : (Except.ok st : Except PyErr (Report × List String)) = .ok st' := h
    injection h2 with h3
    rw [← h3]
    rfl
  | cons kv rest ih =>
    intro st st' h
    rw [List.foldlM_cons] at h
    cases hm : mergeStep i st kv with
    | error e => rw [hm] at h; simp [Bind.bind, Except.bind] at h
    | ok st1 =>
      rw [hm] at h
      have h2 : rest.foldlM (mergeStep i) st1 = .ok st' := h
      rw [Report.setItems_cons, ← mergeStep_ok_fst i st st1 kv hm]
      exact ih st1 st' h2

/-- Fold of `setItems` over all merge sources: the key-value effect of the
whole merge loop, independent of warning side effects. -/
def Report.setItemsAll (r : Report) (ls : List (List (String × Value))) :
    Report :=
  ls.foldl Report.setItems r

theorem Report.setItemsAll_cons (r : Report) (l : List (String × Value))
    (ls : List (List (String × Value))) :
    r.setItemsAll (l :: ls) = (r.setItems l).setItemsAll ls := rfl

theorem Report.containsKey_setItemsAll_of (ls : List (List (String × Value))) :
    ∀ (r : Report) (k : String), r.containsKey k = true →
    (r.setItemsAll ls).containsKey k = true := by
  induction ls with
  | nil => intro r k h; simpa [Report.setItemsAll] using h
  | cons l rest ih =>
    intro r k h
    rw [Report.setItemsAll_cons]
    exact ih _ k (Report.containsKey_setItems_of l r k h)

theorem Report.fields_setItemsAll_prefix (ls : List (List (String × Value))) :
    ∀ (r : Report), ∃ t, (r.setItemsAll ls).fields = r.fields ++ t := by
  induction ls with
  | nil => intro r; exact ⟨[], by simp [Report.setItemsAll]⟩
  | cons l rest ih =>
    intro r
    rw [Report.setItemsAll_cons]
    obtain ⟨t1, h1⟩ := Report.fields_setItems_prefix l r
    obtain ⟨t2, h2⟩ := ih (r.setItems l)
    exact ⟨t1 ++ t2, by rw [h2, h1, List.append_assoc]⟩

theorem Report.fields_nodup_setItemsAll (ls : List (List (String × Value))) :
    ∀ (r : Report), r.fields.Nodup → (r.setItemsAll ls).fields.Nodup := by
  induction ls with
  | nil => intro r h; simpa [Report.setItemsAll] using h
  | cons l rest ih =>
    intro r h
    rw [Report.setItemsAll_cons]
    exact ih _ (Report.fields_nodup_setItems l r h)

theorem mergeFrom_ok_fst (ls : List (List (String × Value))) :
    ∀ (i : Nat) (st st' : Report × List String),
    mergeFrom i st ls = .ok st' → st'.1 = st.1.setItemsAll ls := by
  induction ls with
  | nil =>
    intro i st st' h
    have h2 : (Except.ok st : Except PyErr (Report × List String)) = .ok st' := h
    injection h2 with h3
    rw [← h3]
    rfl
  | cons l rest ih =>
    intro i st st' h
    rw [show mergeFrom i st (l :: rest)
        = (match l.foldlM (mergeStep i) st with
          | .error e => .error e
          | .ok st2 => mergeFrom (i + 1) st2 rest) from rfl] at h
    cases hm : l.foldlM (mergeStep i) st with
    | error e => rw [hm] at h; simp at h
    | ok st2 =>
      rw [hm] at h
      have h2 : mergeFrom (i + 1) st2 rest = .ok st' := h
      rw [Report.setItemsAll_cons, ← mergeFoldM_ok_fst i l st st2 hm]
      exact ih (i + 1) st2 st' h2

theorem firstNonMapping_map_mMap (xs : List (List (String × Value))) :
    firstNonMapping (xs.map MapArg.mMap) = none := by
  induction xs with
  | nil => rfl
  | cons x rest ih => simp [firstNonMapping, MapArg.isMapping, ih]

theorem entriesOf_comp_mMap : MapArg.entriesOf ∘ MapArg.mMap = id :=
  funext fun _ => rfl

theorem entriesOf_map_mMap (xs : List (List (String × Value))) :
    (xs.map MapArg.mMap).map MapArg.entriesOf = xs := by
  rw [List.map_map, entriesOf_comp_mMap, List.map_id]

/-- The report holding just `batch_size` and `warning_string`, as built at
the top of the merge path of `__init__`. -/
def constructBase (bs : ℚ) : Report :=
  ((Report.mk []).setItem "batch_size" (.vNum bs)).setItem
    "warning_string" (.vStr warningTemplate)

theorem constructBase_entries (bs : ℚ) :
    (constructBase bs).entries =
      [("batch_size", .vNum bs), ("warning_string", .vStr warningTemplate)] := rfl

theorem construct_mMap_eq (b mo : List (String × Value)) (bs : ℚ)
    (argss : List (List (String × Value))) :
    Report.construct (.bMap b bs) (some (.mMap mo)) (argss.map MapArg.mMap)
      = match mergeFrom 0 (constructBase bs, []) (b :: mo :: argss) with
        | .error e => .errRes e
        | .ok st => .okRes st.1 st.2 := by
  simp [Report.construct, Report.check_and_load_tuple, batchToMapArg,
    firstNonMapping, MapArg.isMapping, firstNonMapping_map_mMap,
    MapArg.entriesOf, entriesOf_comp_mMap, constructBase]

theorem copyFold (r : Report) (todo : List (String × Value)) :
    ∀ (acc : Report), (∀ p ∈ todo, r.lookup p.1 = some p.2) →
    (assocKeys todo).foldl
      (fun a f => a.setItem f (deepCopy ((r.lookup f).getD (.vNum 0)))) acc
      = acc.setItems todo := by
  induction todo with
  | nil => intro acc _; rfl
  | cons p rest ih =>
    intro acc h
    rw [assocKeys_cons, List.foldl_cons,
      h p (List.mem_cons_self _ _), Report.setItems_cons]
    exact ih _ (fun q hq => h q (List.mem_cons_of_mem _ hq))

theorem Report.copy_entries (r : Report) (h : r.fields.Nodup) :
    r.copy.entries = r.entries := by
  have hmem : ∀ p ∈ r.entries, r.lookup p.1 = some p.2 := by
    intro p hp
    exact assocGet_of_mem_nodup r.entries p.1 p.2 h hp
  rw [Report.copy]
  rw [show r.fields = assocKeys r.entries from rfl]
  rw [copyFold r r.entries ⟨[]⟩ hmem]
  rw [Report.setItems_fresh r.entries ⟨[]⟩
    (by intro k _ hk; simp [assocKeys_nil] at hk) h]
  simp

theorem apply_fn_fNone_entries (r : Report) (fn : Value → Value) :
    (r.apply_fn fn .fNone).entries
      = r.entries.map (fun p => (p.1, applyOnce fn p.2)) := by
  simp [Report.apply_fn, skipField]

theorem apply_fn_fOther_entries (r : Report) (fn : Value → Value)
    (ks : List String) :
    (r.apply_fn fn (.fOther ks)).entries
      = r.entries.map (fun p => (p.1, applyOnce fn p.2)) := by
  simp [Report.apply_fn, skipField]

theorem apply_fn_fList_entries (r : Report) (fn : Value → Value)
    (ks : List String) :
    (r.apply_fn fn (.fList ks)).entries
      = r.entries.map (fun p =>
          if ks.contains p.1 then (p.1, applyOnce fn p.2) else p) := by
  simp only [Report.apply_fn]
  refine List.map_congr_left ?_
  intro p _
  by_cases h : ks.contains p.1 <;> simp [skipField, h]

theorem Report.eq_of_entries {r r' : Report} (h : r.entries = r'.entries) :
    r = r' := by
  cases r; cases r'; cases h; rfl

/-- A `(key, value)` pair as the Python tuple `(key, value)`, the shape the
tuple-of-pairs construction path consumes. -/
def encodePair (p : String × Value) : Value := .vTuple [.vStr p.1, p.2]

theorem loadFold (ps : List (String × Value)) : ∀ (r : Report),
    (ps.map encodePair).foldlM loadPair r = .ok (r.setItems ps) := by
  induction ps with
  | nil => intro r; rfl
  | cons p rest ih =>
    intro r
    rw [List.map_cons, List.foldlM_cons]
    show (loadPair r (encodePair p)) >>= _ = _
    rw [show loadPair r (encodePair p) = .ok (r.setItem p.1 p.2) from rfl]
    show (rest.map encodePair).foldlM loadPair (r.setItem p.1 p.2) = _
    rw [ih, Report.setItems_cons]

/-- Increment numbers, leave everything else alone: a transform used to
witness the one-level recursion policy of `apply_fn`. -/
def bumpNum : Value → Value
  | .vNum q => .vNum (q + 1)
  | v => v

/-- C1: the claim states that constructing from disjoint mapping sources
`batch` and `model_output` yields exactly the union of their keys as the
field list.  False: the merge path first stores `batch_size` and
`warning_string` as ordinary fields, so they lead the field list.  Here
`batch = {"a": 1}`, `model_output = {"b": 2}` (disjoint) give fields
`["batch_size", "warning_string", "a", "b"]`, not `["a", "b"]`. -/
theorem c1_counterexample :
    (Report.construct (.bMap [("a", .vNum 1)] 7) (some (.mMap [("b", .vNum 2)]))
      []).reportOf.fields = ["batch_size", "warning_string", "a", "b"]
    ∧ ["batch_size", "warning_string", "a", "b"] ≠ ["a", "b"] :=
  ⟨rfl, by decide⟩

/-- C1 (amended): for mapping sources with disjoint key sets that avoid
the reserved names `batch_size` and `warning_string`, the field list is
exactly `batch_size`, `warning_string`, then all batch keys in batch
iteration order, then all model_output keys in model_output iteration
order, with no other fields; no warning is emitted. -/
theorem c1_field_order (b mo : List (String × Value)) (bs : ℚ)
    (hb : (assocKeys b).Nodup) (hmo : (assocKeys mo).Nodup)
    (hdisj : ∀ k ∈ assocKeys b, k ∉ assocKeys mo)
    (hb1 : "batch_size" ∉ assocKeys b) (hb2 : "warning_string" ∉ assocKeys b)
    (hm1 : "batch_size" ∉ assocKeys mo)
    (hm2 : "warning_string" ∉ assocKeys mo) :
    (Report.construct (.bMap b bs) (some (.mMap mo)) []).reportOf.fields
      = "batch_size" :: "warning_string" :: (assocKeys b ++ assocKeys mo)
    ∧ (Report.construct (.bMap b bs) (some (.mMap mo)) []).warnsOf = [] := by
  rw [show ([] : List MapArg) = List.map MapArg.mMap [] from rfl,
    construct_mMap_eq]
  have hmerge : mergeFrom 0 (constructBase bs, ([] : List String)) [b, mo]
      = .ok (((constructBase bs).setItems b).setItems mo, []) := by
    rw [mergeFrom_cons, mergeFoldM_lt 0 (by omega)]
    show mergeFrom 1 ((constructBase bs).setItems b, []) [mo] = _
    rw [mergeFrom_cons, mergeFoldM_lt 1 (by omega)]
    rfl
  have hfresh1 : ∀ k ∈ assocKeys b, k ∉ assocKeys (constructBase bs).entries := by
    intro k hk
    rw [constructBase_entries]
    intro hmem
    rcases (by simpa [assocKeys_cons, assocKeys_nil] using hmem :
        k = "batch_size" ∨ k = "warning_string") with h | h
    · exact hb1 (h ▸ hk)
    · exact hb2 (h ▸ hk)
  have e1 : ((constructBase bs).setItems b).entries = (constructBase bs).entries ++ b :=
    Report.setItems_fresh b (constructBase bs) hfresh1 hb
  have hfresh2 : ∀ k ∈ assocKeys mo,
      k ∉ assocKeys ((constructBase bs).setItems b).entries := by
    intro k hk
    rw [e1, assocKeys_append, constructBase_entries]
    intro hmem
    rcases List.mem_append.mp hmem with h | h
    · rcases (by simpa [assocKeys_cons, assocKeys_nil] using h :
          k = "batch_size" ∨ k = "warning_string") with h' | h'
      · exact hm1 (h' ▸ hk)
      · exact hm2 (h' ▸ hk)
    · exact absurd hk (by
        intro hk'
        exact absurd h (by
          intro hb'
          exact hdisj k hb' hk'))
  have e2 : (((constructBase bs).setItems b).setItems mo).entries
      = ((constructBase bs).setItems b).entries ++ mo :=
    Report.setItems_fresh mo _ hfresh2 hmo
  rw [hmerge]
  constructor
  · show (((constructBase bs).setItems b).setItems mo).fields = _
    rw [show (((constructBase bs).setItems b).setItems mo).fields
        = assocKeys ((((constructBase bs).setItems b).setItems mo).entries)
        from rfl,
      e2, e1, assocKeys_append, assocKeys_append, constructBase_entries]
    simp [assocKeys_cons, assocKeys_nil]
  · rfl

/-- C1 witness: the amended field-order theorem at `batch = {"a": 1}`,
`model_output = {"b": 2}`, batch size 7. -/
theorem c1_field_order_witness :
    (Report.construct (.bMap [("a", .vNum 1)] 7)
      (some (.mMap [("b", .vNum 2)])) []).reportOf.fields
      = ["batch_size", "warning_string", "a", "b"] :=
  (c1_field_order [("a", .vNum 1)] [("b", .vNum 2)] 7 (by decide) (by decide)
    (by decide) (by decide) (by decide) (by decide) (by decide)).1

/-- C2: a key shared by `batch` and `model_output` (merge positions 0 and
1) is silently overwritten with `model_output`'s value and no warning is
emitted, while an extra positional argument (merge position 2) sharing a
key already present emits one warning, built from the key's name, and the
extra argument's value wins.  The hypothesis keeps the key away from
`warning_string`: overwriting that key replaces the very template the
warning is formatted from (changing the text or crashing the format
call), which the collision-policy claim does not describe. -/
theorem c2_collision_policy (k : String) (v1 v2 v3 : Value) (bs : ℚ)
    (hk : k ≠ "warning_string") :
    ((Report.construct (.bMap [(k, v1)] bs) (some (.mMap [(k, v2)]))
        []).reportOf.lookup k = some v2
      ∧ (Report.construct (.bMap [(k, v1)] bs) (some (.mMap [(k, v2)]))
        []).warnsOf = [])
    ∧ ((Report.construct (.bMap [(k, v1)] bs) (some (.mMap [(k, v2)]))
        [.mMap [(k, v3)]]).reportOf.lookup k = some v3
      ∧ (Report.construct (.bMap [(k, v1)] bs) (some (.mMap [(k, v2)]))
        [.mMap [(k, v3)]]).warnsOf = [mergeWarning k]) := by
  have hws : (((constructBase bs).setItem k v1).setItem k v2).getattr
      "warning_string" = .ok (.vStr warningTemplate) := by
    have h1 : (((constructBase bs).setItem k v1).setItem k v2).lookup
        "warning_string" = some (.vStr warningTemplate) := by
      rw [Report.lookup_setItem_ne _ _ _ _ (Ne.symm hk),
        Report.lookup_setItem_ne _ _ _ _ (Ne.symm hk)]
      exact Report.lookup_setItem_self _ "warning_string" _
    simp [Report.getattr, Report.getitem, Report.lookup] at h1 ⊢
    simp [h1]
  have hmA : mergeFrom 0 (constructBase bs, ([] : List String))
      [[(k, v1)], [(k, v2)]]
      = .ok (((constructBase bs).setItem k v1).setItem k v2, []) := by
    rw [mergeFrom_cons, mergeFoldM_lt 0 (by omega)]
    show mergeFrom 1 ((constructBase bs).setItem k v1, []) [[(k, v2)]] = _
    rw [mergeFrom_cons, mergeFoldM_lt 1 (by omega)]
    rfl
  have hstep2 : mergeStep 2
      (((constructBase bs).setItem k v1).setItem k v2, ([] : List String))
      (k, v3)
      = .ok ((((constructBase bs).setItem k v1).setItem k v2).setItem k v3,
          [mergeWarning k]) := by
    have hck : (((constructBase bs).setItem k v1).setItem k v2).containsKey k
        = true := Report.containsKey_setItem_self _ k v2
    simp [mergeStep, hck, hws, pyFormat_template]
  have hmB : mergeFrom 0 (constructBase bs, ([] : List String))
      [[(k, v1)], [(k, v2)], [(k, v3)]]
      = .ok ((((constructBase bs).setItem k v1).setItem k v2).setItem k v3,
          [mergeWarning k]) := by
    rw [mergeFrom_cons, mergeFoldM_lt 0 (by omega)]
    show mergeFrom 1 ((constructBase bs).setItem k v1, [])
      [[(k, v2)], [(k, v3)]] = _
    rw [mergeFrom_cons, mergeFoldM_lt 1 (by omega)]
    show mergeFrom 2 (((constructBase bs).setItem k v1).setItem k v2, [])
      [[(k, v3)]] = _
    rw [mergeFrom_cons, mergeFoldM_singleton 2 _ _ _ hstep2]
    rfl
  rw [show ([MapArg.mMap [(k, v3)]] : List MapArg)
      = List.map MapArg.mMap [[(k, v3)]] from rfl,
    show ([] : List MapArg) = List.map MapArg.mMap [] from rfl,
    construct_mMap_eq, construct_mMap_eq, hmA, hmB]
  exact ⟨⟨Report.lookup_setItem_self _ k v2, rfl⟩,
    Report.lookup_setItem_self _ k v3, rfl⟩

/-- C2 witness: the collision policy at key `"x"` with values 1, 2, 3 and
batch size 7. -/
theorem c2_collision_policy_witness :
    (Report.construct (.bMap [("x", .vNum 1)] 7) (some (.mMap [("x", .vNum 2)]))
      []).reportOf.lookup "x" = some (.vNum 2)
    ∧ (Report.construct (.bMap [("x", .vNum 1)] 7) (some (.mMap [("x", .vNum 2)]))
      [.mMap [("x", .vNum 3)]]).warnsOf = [mergeWarning "x"] :=
  ⟨(c2_collision_policy "x" (.vNum 1) (.vNum 2) (.vNum 3) 7 (by decide)).1.1,
   (c2_collision_policy "x" (.vNum 1) (.vNum 2) (.vNum 3) 7 (by decide)).2.2⟩

/-- C3 counterexample: the claim states `batch_size` is present for every
Report constructed with a non-empty batch, including the tuple-of-pairs
path.  False: the tuple path loads the pairs and returns before
`batch_size` is ever stored, so the accessor fails with an
attribute-style error on a Report built from the non-empty batch
`[("a", 1)]`. -/
theorem c3_counterexample :
    Report.construct (.bSeq [.vTuple [.vStr "a", .vNum 1]])
        (some (.mMap [("x", .vNum 5)])) []
      = .okRes ⟨[("a", .vNum 1)]⟩ []
    ∧ (Report.mk [("a", .vNum 1)]).get_batch_size
      = .error (.attributeError "batch_size") :=
  ⟨rfl, rfl⟩

/-- C3 (amended): `batch_size` is present (the accessor succeeds) on every
Report that the mapping merge path successfully constructs; it is absent
on a default-constructed empty Report, and may also be absent on a
tuple-of-pairs-constructed Report.  (Merge-path construction can itself
fail when a merge source overwrites `warning_string` before a collision
warning is formatted; no Report exists then.) -/
theorem c3_batch_size_present (b mo : List (String × Value)) (bs : ℚ)
    (argss : List (List (String × Value))) (r : Report) (w : List String)
    (hok : Report.construct (.bMap b bs) (some (.mMap mo))
      (argss.map MapArg.mMap) = .okRes r w) :
    (∃ v, r.get_batch_size = .ok v)
    ∧ Report.construct .bNone none [] = .okRes ⟨[]⟩ []
    ∧ (Report.mk []).get_batch_size = .error (.attributeError "batch_size") := by
  refine ⟨?_, rfl, rfl⟩
  rw [construct_mMap_eq] at hok
  cases hm : mergeFrom 0 (constructBase bs, []) (b :: mo :: argss) with
  | error e => rw [hm] at hok; exact absurd hok (by simp)
  | ok st =>
    rw [hm] at hok
    have h2 : InitResult.okRes st.1 st.2 = .okRes r w := hok
    injection h2 with hr hw
    have hfst : st.1 = (constructBase bs).setItemsAll (b :: mo :: argss) :=
      mergeFrom_ok_fst (b :: mo :: argss) 0 _ _ hm
    rw [hr] at hfst
    have hbase : (constructBase bs).containsKey "batch_size" = true :=
      Report.containsKey_setItem_of _ _ _ _
        (Report.containsKey_setItem_self (Report.mk []) "batch_size" (.vNum bs))
    have hc : r.containsKey "batch_size" = true := by
      rw [hfst]
      exact Report.containsKey_setItemsAll_of (b :: mo :: argss) _ _ hbase
    rw [Report.containsKey] at hc
    obtain ⟨v, hv⟩ := Option.isSome_iff_exists.mp hc
    exact ⟨v, by
      simp [Report.get_batch_size, Report.getattr, Report.getitem, hv]⟩

/-- C3 witness: a merge-path construction at `batch = {"a": 1}` with batch
size 7 succeeds and yields a Report whose `batch_size` accessor
succeeds. -/
theorem c3_batch_size_present_witness :
    ∃ v, (Report.mk [("batch_size", Value.vNum 7),
      ("warning_string", Value.vStr warningTemplate),
      ("a", Value.vNum 1)]).get_batch_size = .ok v :=
  (c3_batch_size_present [("a", .vNum 1)] [] 7 []
    (Report.mk [("batch_size", Value.vNum 7),
      ("warning_string", Value.vStr warningTemplate), ("a", Value.vNum 1)])
    [] rfl).1

/-- C4: when `batch` is a non-mapping sequence of string-keyed pairs (the
first element being pair-shaped triggers the fast path), construction
loads exactly those pairs in sequence order and returns immediately:
whatever `model_output` and extra positional arguments are — even
non-mappings — they are ignored, no merge happens and no error or
warning is raised. -/
theorem c4_tuple_path (pairs : List (String × Value)) (mo : Option MapArg)
    (args : List MapArg) (hne : pairs ≠ [])
    (hnd : (assocKeys pairs).Nodup) :
    Report.construct (.bSeq (pairs.map encodePair)) mo args
      = .okRes ⟨pairs⟩ [] := by
  cases pairs with
  | nil => exact absurd rfl hne
  | cons p rest =>
    have hentry : ((⟨[]⟩ : Report).setItems (p :: rest)).entries = p :: rest := by
      rw [Report.setItems_fresh (p :: rest) ⟨[]⟩
        (by intro k _ hk; simp [assocKeys_nil] at hk) hnd]
      rfl
    have hload := loadFold (p :: rest) ⟨[]⟩
    rw [List.map_cons] at hload
    simp only [encodePair] at hload
    simp only [Report.construct, Report.check_and_load_tuple, List.map_cons,
      encodePair, tupleHeadCheck]
    rw [hload]
    show InitResult.okRes ((⟨[]⟩ : Report).setItems (p :: rest)) [] = _
    rw [Report.eq_of_entries hentry]

/-- C4 witness: the tuple path at `[("a", 1), ("b", 2)]` with a
non-mapping `model_output` and a non-mapping extra argument, both
ignored. -/
theorem c4_tuple_path_witness :
    Report.construct
        (.bSeq ([("a", Value.vNum 1), ("b", Value.vNum 2)].map encodePair))
        (some .mNonMap) [.mNonMap]
      = .okRes ⟨[("a", .vNum 1), ("b", .vNum 2)]⟩ [] :=
  c4_tuple_path [("a", .vNum 1), ("b", .vNum 2)] (some .mNonMap) [.mNonMap]
    (by simp) (by decide)

/-- C5: attribute and subscript access are two facades over the same
store — an attribute read returns exactly what the subscript read
returns (the only difference is the error class on a miss), a mutation
through either syntax is visible through both, and reading an absent key
via attribute syntax fails with an attribute-style error, not a key
error. -/
theorem c5_access_unified (r : Report) (k : String) (v : Value) :
    r.getattr k = (r.getitem k).mapError (fun _ => PyErr.attributeError k)
    ∧ (r.setattr k v).getitem k = .ok v
    ∧ (r.setattr k v).getattr k = .ok v
    ∧ (r.setItem k v).getitem k = .ok v
    ∧ (r.setItem k v).getattr k = .ok v
    ∧ (r.lookup k = none → r.getattr k = .error (.attributeError k)) := by
  refine ⟨?_, ?_, ?_, ?_, ?_, ?_⟩
  · cases h : r.lookup k <;>
      simp [Report.getattr, Report.getitem, h, Except.mapError]
  · simp [Report.setattr, Report.getitem, Report.lookup_setItem_self]
  · simp [Report.setattr, Report.getattr, Report.getitem,
      Report.lookup_setItem_self]
  · simp [Report.getitem, Report.lookup_setItem_self]
  · simp [Report.getattr, Report.getitem, Report.lookup_setItem_self]
  · intro h
    simp [Report.getattr, Report.getitem, h]

/-- C5 witness: on the empty report, an attribute read of the absent key
`"x"` fails attribute-style, and after an attribute write of `"x"` the
subscript read sees the value. -/
theorem c5_access_unified_witness :
    (Report.mk []).getattr "x" = .error (.attributeError "x")
    ∧ ((Report.mk []).setattr "x" (.vNum 1)).getitem "x" = .ok (.vNum 1) :=
  ⟨(c5_access_unified ⟨[]⟩ "x" (.vNum 1)).2.2.2.2.2 rfl,
   (c5_access_unified ⟨[]⟩ "x" (.vNum 1)).2.1⟩

/-- C6: `apply_fn` recursion is exactly one level deep.  For every
processed key, `fn` is applied to the top-level value and the result
stored back; if the post-transform value is a mutable sequence, `fn` is
applied once more to each element; if it is a dict, once more to each
value; anything else (including immutable tuples) is left as `fn`
returned it.  The closed instance shows a doubly-nested list whose inner
elements stay untransformed while the sibling top-level element is
transformed. -/
theorem c6_one_level_recursion (r : Report) (fn : Value → Value) :
    (r.apply_fn fn .fNone).entries
        = r.entries.map (fun p => (p.1, applyOnce fn p.2))
    ∧ (∀ v xs, fn v = .vList xs → applyOnce fn v = .vList (xs.map fn))
    ∧ (∀ v m, fn v = .vDict m →
        applyOnce fn v = .vDict (m.map (fun p => (p.1, fn p.2))))
    ∧ (∀ v, (∀ xs, fn v ≠ .vList xs) → (∀ m, fn v ≠ .vDict m) →
        applyOnce fn v = fn v)
    ∧ (Report.apply_fn ⟨[("a", .vList [.vList [.vNum 0], .vNum 0])]⟩
        bumpNum .fNone).entries
      = [("a", .vList [.vList [.vNum 0], .vNum 1])] := by
  refine ⟨apply_fn_fNone_entries r fn, ?_, ?_, ?_,
    by simp [Report.apply_fn, skipField, applyOnce, bumpNum]⟩
  · intro v xs h
    simp [applyOnce, h]
  · intro v m h
    simp [applyOnce, h]
  · intro v h1 h2
    unfold applyOnce
    cases hfn : fn v with
    | vList xs => exact absurd hfn (h1 xs)
    | vDict m => exact absurd hfn (h2 m)
    | vNum q => simp [hfn]
    | vStr s => simp [hfn]
    | vTensor s d => simp [hfn]
    | vTuple xs => simp [hfn]

/-- C6 witness: the one-level policy applied at concrete values — a list
result maps `fn` over its elements, a dict result over its values, and a
plain number is returned as `fn` produced it. -/
theorem c6_one_level_recursion_witness :
    applyOnce bumpNum (.vList []) = .vList []
    ∧ applyOnce bumpNum (.vDict []) = .vDict []
    ∧ applyOnce bumpNum (.vNum 0) = .vNum 1 :=
  ⟨(c6_one_level_recursion ⟨[]⟩ bumpNum).2.1 (.vList []) [] rfl,
   (c6_one_level_recursion ⟨[]⟩ bumpNum).2.2.1 (.vDict []) [] rfl,
   ((c6_one_level_recursion ⟨[]⟩ bumpNum).2.2.2.1 (.vNum 0)
     (by intro xs h; exact Value.noConfusion h)
     (by intro m h; exact Value.noConfusion h)).trans
       (by norm_num [bumpNum])⟩

/-- C7 counterexample: the claim states an empty `fields` collection
makes `apply_fn` process every key.  False: an empty list passes the
`isinstance(fields, (list, tuple))` guard, so `key not in fields` holds
for every key and all keys are skipped: the single field keeps value 0
instead of the transform's 99. -/
theorem c7_counterexample :
    (Report.apply_fn ⟨[("a", .vNum 0)]⟩ (fun _ => .vNum 99)
        (.fList [])).entries = [("a", .vNum 0)]
    ∧ Value.vNum 0 ≠ Value.vNum 99 := by
  refine ⟨rfl, ?_⟩
  intro h
  injection h with h'
  exact absurd h' (by norm_num)

/-- C7 (amended): when `fields` is a list or tuple, exactly the keys it
contains are processed — in particular an empty list/tuple processes no
key at all; when `fields` is omitted/`None`, or is some other kind of
collection that fails the `isinstance(fields, (list, tuple))` guard,
every key is processed. -/
theorem c7_fields_restriction (r : Report) (fn : Value → Value)
    (ks : List String) :
    (r.apply_fn fn (.fList ks)).entries
        = r.entries.map (fun p =>
            if ks.contains p.1 then (p.1, applyOnce fn p.2) else p)
    ∧ (r.apply_fn fn .fNone).entries
        = r.entries.map (fun p => (p.1, applyOnce fn p.2))
    ∧ (r.apply_fn fn (.fOther ks)).entries
        = r.entries.map (fun p => (p.1, applyOnce fn p.2)) :=
  ⟨apply_fn_fList_entries r fn ks, apply_fn_fNone_entries r fn,
   apply_fn_fOther_entries r fn ks⟩

/-- C8: `accumulate_tensor_fields_and_loss` on a requested field present
with a tensor value replaces it by the concatenation of self's value and
the other report's value along the leading axis — shapes `(4, c)` and
`(2, c)` give `(6, c)` with self's data first; a requested field absent
from self only emits a warning and is skipped with no exception; the
reserved sentinel `__prediction_report__` is skipped silently. -/
theorem c8_tensor_accumulation (c : Nat) (d1 d2 : List ℚ) :
    Report.accumulate_tensor_fields_and_loss
        ⟨[("scores", .vTensor [4, c] d1), ("losses", .vDict [])]⟩
        ⟨[("scores", .vTensor [2, c] d2), ("losses", .vDict [])]⟩
        ["scores", "missing_field", "__prediction_report__"]
      = .ok (⟨[("scores", .vTensor [6, c] (d1 ++ d2)), ("losses", .vDict [])]⟩,
          [accFieldWarning "missing_field"]) := by
  simp [Report.accumulate_tensor_fields_and_loss, accField,
    Report.accumulate_loss, Report.lookup, Report.setItem, assocGet, assocSet,
    Value.isTensor, catTensors, Report.getattr, Report.getitem, List.foldlM,
    lossField, Bind.bind, Except.bind, Pure.pure, Except.pure]

/-- C9: loss accumulation with `self.losses = {"ce": tensor(1.0),
"nt": 7}` and `other.losses = {"ce": tensor(0.5), "extra": 9, "nt": 3}`:
the tensor loss `"ce"` becomes `tensor(1.5)` (in-place running sum);
`"extra"` is absent from `self.losses`, so it is ignored with one
warning; the non-tensor value `"nt"` is silently left untouched.  The
spec's float literals denote scalar loss tensors (a plain Python float
would fail the `isinstance(..., torch.Tensor)` guard and stay constant,
contradicting the spec's own only-tensors-are-mutated sentence). -/
theorem c9_loss_accumulation :
    Report.accumulate_loss
        ⟨[("losses", .vDict [("ce", .vTensor [] [1]), ("nt", .vNum 7)])]⟩
        ⟨[("losses", .vDict [("ce", .vTensor [] [1/2]), ("extra", .vNum 9),
            ("nt", .vNum 3)])]⟩ []
      = .ok (⟨[("losses", .vDict [("ce", .vTensor [] [3/2]), ("nt", .vNum 7)])]⟩,
          [lossWarning "extra"]) := by
  simp [Report.accumulate_loss, lossField, Report.getattr, Report.getitem,
    Report.lookup, assocGet, assocSet, Value.isTensor, addTensor,
    Report.setItem, List.foldlM, Bind.bind, Except.bind, Pure.pure, Except.pure]
  norm_num

/-- C10: every Report the mapping merge path successfully constructs
carries `batch_size` and `warning_string` as ordinary fields at the very
front of the field list (inserted before any merged key), so they show
up in `fields()` and iteration, are copied like any other field by
`copy()`, and an unrestricted `apply_fn` applies `fn` to them along with
all other fields.  (Because `warning_string` is an ordinary overwritable
field, the merge loop's warning formatting can also fail, in which case
construction raises and no Report exists.) -/
theorem c10_reserved_fields (b mo : List (String × Value)) (bs : ℚ)
    (argss : List (List (String × Value))) (r : Report) (w : List String)
    (hok : Report.construct (.bMap b bs) (some (.mMap mo))
      (argss.map MapArg.mMap) = .okRes r w) :
    ∃ rest,
      r.fields = "batch_size" :: "warning_string" :: rest
      ∧ r.containsKey "batch_size" = true
      ∧ r.containsKey "warning_string" = true
      ∧ r.copy.entries = r.entries
      ∧ ∀ fn, (r.apply_fn fn .fNone).entries
          = r.entries.map (fun p => (p.1, applyOnce fn p.2)) := by
  rw [construct_mMap_eq] at hok
  cases hm : mergeFrom 0 (constructBase bs, []) (b :: mo :: argss) with
  | error e => rw [hm] at hok; exact absurd hok (by simp)
  | ok st =>
    rw [hm] at hok
    have h2 : InitResult.okRes st.1 st.2 = .okRes r w := hok
    injection h2 with hr hw
    have hfst : st.1 = (constructBase bs).setItemsAll (b :: mo :: argss) :=
      mergeFrom_ok_fst (b :: mo :: argss) 0 _ _ hm
    rw [hr] at hfst
    obtain ⟨t, ht⟩ :=
      Report.fields_setItemsAll_prefix (b :: mo :: argss) (constructBase bs)
    have hfields : r.fields = "batch_size" :: "warning_string" :: t := by
      rw [hfst, ht]
      rfl
    have hnodup : r.fields.Nodup := by
      rw [hfst]
      refine Report.fields_nodup_setItemsAll _ _ ?_
      rw [show (constructBase bs).fields
        = ["batch_size", "warning_string"] from rfl]
      decide
    have hcb : r.containsKey "batch_size" = true := by
      rw [hfst]
      exact Report.containsKey_setItemsAll_of _ _ _
        (Report.containsKey_setItem_of _ _ _ _
          (Report.containsKey_setItem_self (Report.mk []) "batch_size"
            (.vNum bs)))
    have hcw : r.containsKey "warning_string" = true := by
      rw [hfst]
      exact Report.containsKey_setItemsAll_of _ _ _
        (Report.containsKey_setItem_self _ "warning_string" _)
    exact ⟨t, hfields, hcb, hcw, Report.copy_entries r hnodup,
      fun fn => apply_fn_fNone_entries r fn⟩

/-- C10 witness: a successful merge-path construction at `batch =
{"a": 1}`, `model_output = {"b": 2}`, batch size 7, whose field list
leads with the two reserved names. -/
theorem c10_reserved_fields_witness :
    ∃ rest, (Report.mk [("batch_size", Value.vNum 7),
        ("warning_string", Value.vStr warningTemplate), ("a", Value.vNum 1),
        ("b", Value.vNum 2)]).fields
      = "batch_size" :: "warning_string" :: rest := by
  obtain ⟨rest, hf, _⟩ := c10_reserved_fields [("a", .vNum 1)]
    [("b", .vNum 2)] 7 []
    (Report.mk [("batch_size", Value.vNum 7),
      ("warning_string", Value.vStr warningTemplate), ("a", Value.vNum 1),
      ("b", Value.vNum 2)]) [] rfl
  exact ⟨rest, hf⟩
